import Mathlib

/-!
Verification of the generation pipeline of the ThinkingTool Obsidian plugin
(src/main.ts): the retry wrapper `callAI`, the topic-suggestion parser
`generateTopicSuggestions`, the wizard state machine of
`GenerateArticleModal`, and article-note creation (`createArticleNote`).
The TypeScript source is shallowly embedded as executable Lean definitions;
network and vault effects are inputs (stubs) to the embedded functions.
-/

namespace ThinkingTool

/-- src/main.ts line 74: maximum number of attempts of `callAI`. -/
def MAX_RETRIES : Nat := 3

/-- src/main.ts line 75: base backoff delay, in milliseconds. -/
def RETRY_DELAY : Nat := 1000

/-- Observable behaviour of one `callAI` invocation: how many underlying
provider calls were made, which backoff waits (in milliseconds) were slept
between attempts, and the final outcome (the returned text, or the message
of the thrown error). -/
structure CallTrace where
  calls : Nat
  waits : List Nat
  result : Except String String
deriving Repr

/-- src/main.ts line 726: the aggregated message thrown after the retry
budget is spent. The JS expression `lastError?.message || "알 수 없는 오류"`
falls back to the default when the last message is null or the empty string
(both falsy). -/
def exhaustedMsg (lastError : Option String) : String :=
  "AI 호출 실패 (" ++ Nat.repr MAX_RETRIES ++ "회 시도): " ++
    (match lastError with
     | some m => if m = "" then "알 수 없는 오류" else m
     | none => "알 수 없는 오류")

/-- src/main.ts lines 700-724, the body of the retry loop of `callAI`,
embedded over a provider stub mapping the 1-based attempt number to that
attempt's outcome (the outcome of `callGeminiWithTimeout` /
`callOpenAIWithTimeout` / `callAnthropicWithTimeout`, whose thrown errors
are all caught uniformly by the `catch` at line 714 — the code performs no
classification of the caught error).  `attempt` is the current attempt
number and `remaining` how many attempts are still allowed, so the loop is
entered with `attempt = 1` and `remaining = MAX_RETRIES`.  On failure of a
non-final attempt the loop sleeps `RETRY_DELAY * 2 ^ (attempt - 1)`
milliseconds (line 719) and retries; after the final attempt's failure it
throws the aggregated error (line 726). -/
def callAILoop (stub : Nat → Except String String) :
    Nat → Nat → Option String → CallTrace
  | _, 0, lastError =>
    { calls := 0, waits := [], result := .error (exhaustedMsg lastError) }
  | attempt, remaining + 1, _ =>
    match stub attempt with
    | .ok text => { calls := 1, waits := [], result := .ok text }
    | .error e =>
      if remaining = 0 then
        { calls := 1, waits := [], result := .error (exhaustedMsg (some e)) }
      else
        let delay := RETRY_DELAY * 2 ^ (attempt - 1)
        let rest := callAILoop stub (attempt + 1) remaining (some e)
        { calls := rest.calls + 1, waits := delay :: rest.waits,
          result := rest.result }

/-- src/main.ts lines 696-727: `callAI` runs the retry loop from attempt 1
with the full budget and a null `lastError`. -/
def callAI (stub : Nat → Except String String) : CallTrace :=
  callAILoop stub 1 MAX_RETRIES none

/-- The exact message thrown by `callOpenAIWithTimeout` (src/main.ts
line 753) when no OpenAI credential is configured — per the spec's taxonomy
an `AuthError`.  It is thrown inside the retry loop, so `callAI` sees it as
an ordinary failure. -/
def openAIMissingKeyMsg : String :=
  "OpenAI API 키가 설정되지 않았습니다. 설정에서 API 키를 입력해주세요."

/-- A provider stub that fails every attempt with the missing-credential
(auth) error, as a provider client without a configured key does. -/
def authFailStub : Nat → Except String String :=
  fun _ => .error openAIMissingKeyMsg

/-- JSON values as produced by JSON.parse.  Numbers keep their source
lexeme; the topic-parsing code never inspects numeric values, and the
parsed elements are cast, not validated, in the TypeScript source. -/
inductive Json where
  | null
  | bool (b : Bool)
  | num (lexeme : String)
  | str (s : String)
  | arr (elems : List Json)
  | obj (fields : List (String × Json))

/-- The JSON whitespace characters (RFC 8259), as skipped by JSON.parse. -/
def isJsonWs (c : Char) : Bool :=
  c = ' ' || c = '\t' || c = '\n' || c = '\r'

def skipJsonWs : List Char → List Char
  | [] => []
  | c :: cs => if isJsonWs c then skipJsonWs cs else c :: cs

def hexVal (c : Char) : Option Nat :=
  if '0' ≤ c ∧ c ≤ '9' then some (c.toNat - '0'.toNat)
  else if 'a' ≤ c ∧ c ≤ 'f' then some (c.toNat - 'a'.toNat + 10)
  else if 'A' ≤ c ∧ c ≤ 'F' then some (c.toNat - 'A'.toNat + 10)
  else none

/-- Parse the body of a JSON string after the opening quote, returning the
decoded characters and the input remaining after the closing quote.
Unescaped control characters are rejected, as JSON.parse rejects them. -/
def parseStringBody : List Char → Option (List Char × List Char)
  | [] => none
  | '"' :: rest => some ([], rest)
  | '\\' :: esc :: rest =>
    match esc with
    | '"' => (parseStringBody rest).map (fun p => ('"' :: p.1, p.2))
    | '\\' => (parseStringBody rest).map (fun p => ('\\' :: p.1, p.2))
    | '/' => (parseStringBody rest).map (fun p => ('/' :: p.1, p.2))
    | 'b' => (parseStringBody rest).map (fun p => ('\x08' :: p.1, p.2))
    | 'f' => (parseStringBody rest).map (fun p => ('\x0c' :: p.1, p.2))
    | 'n' => (parseStringBody rest).map (fun p => ('\n' :: p.1, p.2))
    | 'r' => (parseStringBody rest).map (fun p => ('\r' :: p.1, p.2))
    | 't' => (parseStringBody rest).map (fun p => ('\t' :: p.1, p.2))
    | 'u' =>
      match rest with
      | h1 :: h2 :: h3 :: h4 :: rest2 =>
        match hexVal h1, hexVal h2, hexVal h3, hexVal h4 with
        | some a, some b, some c, some d =>
          let code := ((a * 16 + b) * 16 + c) * 16 + d
          (parseStringBody rest2).map (fun p => (Char.ofNat code :: p.1, p.2))
        | _, _, _, _ => none
      | _ => none
    | _ => none
  | c :: rest =>
    if c.toNat < 32 then none
    else (parseStringBody rest).map (fun p => (c :: p.1, p.2))

def takeDigits : List Char → List Char × List Char
  | [] => ([], [])
  | c :: cs =>
    if c.isDigit then
      let p := takeDigits cs
      (c :: p.1, p.2)
    else ([], c :: cs)

/-- Optional fractional part of a JSON number. -/
def parseFracPart (l : List Char) : Option (List Char × List Char) :=
  match l with
  | '.' :: rest =>
    match takeDigits rest with
    | ([], _) => none
    | (ds, l2) => some ('.' :: ds, l2)
  | _ => some ([], l)

/-- Optional exponent part of a JSON number. -/
def parseExpPart (l : List Char) : Option (List Char × List Char) :=
  match l with
  | e :: rest =>
    if e = 'e' ∨ e = 'E' then
      let sgnSplit :=
        match rest with
        | '+' :: r2 => (['+'], r2)
        | '-' :: r2 => (['-'], r2)
        | _ => (([] : List Char), rest)
      match takeDigits sgnSplit.2 with
      | ([], _) => none
      | (ds, l2) => some (e :: (sgnSplit.1 ++ ds), l2)
    else some ([], e :: rest)
  | [] => some ([], [])

def parseNumberTail (l : List Char) : Option (List Char × List Char) :=
  match parseFracPart l with
  | none => none
  | some (fr, l1) =>
    match parseExpPart l1 with
    | none => none
    | some (ex, l2) => some (fr ++ ex, l2)

/-- Parse a JSON number lexeme: an optional minus sign, an integer part
with no leading zero, then optional fraction and exponent. -/
def parseNumberLexeme (l : List Char) : Option (List Char × List Char) :=
  let signSplit :=
    match l with
    | '-' :: rest => (['-'], rest)
    | _ => (([] : List Char), l)
  match signSplit.2 with
  | c :: rest =>
    if c = '0' then
      (parseNumberTail rest).map (fun p => (signSplit.1 ++ [c] ++ p.1, p.2))
    else if c.isDigit then
      match takeDigits rest with
      | (ds, l2) =>
        (parseNumberTail l2).map (fun p => (signSplit.1 ++ (c :: ds) ++ p.1, p.2))
    else none
  | [] => none

mutual
/-- Recursive-descent JSON value parser (fuel-bounded; a fuel of twice the
input length plus a constant is always sufficient, since every recursive
call follows the consumption of at least one input character). -/
def parseJsonValue : Nat → List Char → Option (Json × List Char)
  | 0, _ => none
  | fuel + 1, l =>
    match skipJsonWs l with
    | [] => none
    | c :: rest =>
      if c = '\x7b' then
        match skipJsonWs rest with
        | '\x7d' :: rest2 => some (Json.obj [], rest2)
        | r => parseJsonMembers fuel r []
      else if c = '[' then
        match skipJsonWs rest with
        | ']' :: rest2 => some (Json.arr [], rest2)
        | r => parseJsonItems fuel r []
      else if c = '"' then
        (parseStringBody rest).map (fun p => (Json.str (String.mk p.1), p.2))
      else if c = 't' then
        match rest with
        | 'r' :: 'u' :: 'e' :: rest2 => some (Json.bool true, rest2)
        | _ => none
      else if c = 'f' then
        match rest with
        | 'a' :: 'l' :: 's' :: 'e' :: rest2 => some (Json.bool false, rest2)
        | _ => none
      else if c = 'n' then
        match rest with
        | 'u' :: 'l' :: 'l' :: rest2 => some (Json.null, rest2)
        | _ => none
      else
        (parseNumberLexeme (c :: rest)).map
          (fun p => (Json.num (String.mk p.1), p.2))

/-- Items of a JSON array after the opening bracket (nonempty case). -/
def parseJsonItems : Nat → List Char → List Json → Option (Json × List Char)
  | 0, _, _ => none
  | fuel + 1, l, acc =>
    match parseJsonValue fuel l with
    | none => none
    | some (v, rest) =>
      match skipJsonWs rest with
      | ',' :: rest2 => parseJsonItems fuel rest2 (acc ++ [v])
      | ']' :: rest2 => some (Json.arr (acc ++ [v]), rest2)
      | _ => none

/-- Members of a JSON object after the opening brace (nonempty case). -/
def parseJsonMembers : Nat → List Char → List (String × Json) →
    Option (Json × List Char)
  | 0, _, _ => none
  | fuel + 1, l, acc =>
    match skipJsonWs l with
    | '"' :: rest =>
      match parseStringBody rest with
      | none => none
      | some (key, rest2) =>
        match skipJsonWs rest2 with
        | ':' :: rest3 =>
          match parseJsonValue fuel rest3 with
          | none => none
          | some (v, rest4) =>
            match skipJsonWs rest4 with
            | ',' :: rest5 =>
              parseJsonMembers fuel rest5 (acc ++ [(String.mk key, v)])
            | '\x7d' :: rest5 =>
              some (Json.obj (acc ++ [(String.mk key, v)]), rest5)
            | _ => none
        | _ => none
    | _ => none
end

/-- Model of JSON.parse: parse one value and require only whitespace after
it. -/
def jsonParse (s : String) : Option Json :=
  match parseJsonValue (2 * s.length + 8) s.toList with
  | some (v, rest) => if skipJsonWs rest = [] then some v else none
  | none => none

/-- Characters of the input up to and including the first right bracket,
if any. -/
def takeThroughRBracket : List Char → Option (List Char)
  | [] => none
  | c :: cs =>
    if c = ']' then some [c]
    else (takeThroughRBracket cs).map (fun l => c :: l)

/-- src/main.ts line 628: the first match of the LAZY regular expression
with pattern left bracket, lazily repeated any character, right bracket —
that is, from the first left bracket up to the FIRST following right
bracket, balanced or not. -/
def extractLazyBracket : List Char → Option (List Char)
  | [] => none
  | c :: cs =>
    if c = '[' then (takeThroughRBracket cs).map (fun l => c :: l)
    else extractLazyBracket cs

/-- Depth-counting scan after an opening bracket, for the balanced
extraction described by the spec. -/
def balancedScan : Nat → List Char → Option (List Char)
  | _, [] => none
  | depth, c :: cs =>
    if c = '[' then (balancedScan (depth + 1) cs).map (fun l => c :: l)
    else if c = ']' then
      if depth = 1 then some [c]
      else (balancedScan (depth - 1) cs).map (fun l => c :: l)
    else (balancedScan depth cs).map (fun l => c :: l)

/-- Modelled from the spec: locate the first balanced bracketed substring
in the raw response text.  This is what the claim asserts the parser does
(and what the greedy regex of the previous source revision approximated);
the shipped code instead uses the lazy extraction above. -/
def extractBalancedBracket : List Char → Option (List Char)
  | [] => none
  | c :: cs =>
    if c = '[' then (balancedScan 1 cs).map (fun l => c :: l)
    else extractBalancedBracket cs

/-- src/main.ts line 638: the TopicParseError message. -/
def topicParseFailMsg : String :=
  "주제 제안 파싱 실패: AI 응답 형식이 올바르지 않습니다."

/-- src/main.ts lines 627-639 (generateTopicSuggestions, parsing phase):
extract the first lazy bracket match from the raw response, JSON.parse it
(the result is cast, not validated), require a non-empty array, and return
its first (at most) five elements in their original order; every failure
path (no match, parse failure, zero elements) throws the TopicParseError.
The surrounding provider call is `callAI` (line 625). -/
def generateTopicSuggestions (response : String) : Except String (List Json) :=
  match extractLazyBracket response.toList with
  | some frag =>
    match jsonParse (String.mk frag) with
    | some (Json.arr topics) =>
      if 0 < topics.length then Except.ok (topics.take 5)
      else Except.error topicParseFailMsg
    | _ => Except.error topicParseFailMsg
  | none => Except.error topicParseFailMsg

/-- The claimed behaviour, identical except for balanced extraction, for
comparison with the shipped code. -/
def generateTopicSuggestionsBalanced (response : String) :
    Except String (List Json) :=
  match extractBalancedBracket response.toList with
  | some frag =>
    match jsonParse (String.mk frag) with
    | some (Json.arr topics) =>
      if 0 < topics.length then Except.ok (topics.take 5)
      else Except.error topicParseFailMsg
    | _ => Except.error topicParseFailMsg
  | none => Except.error topicParseFailMsg

/-- A provider response that is exactly the JSON the prompt at src/main.ts
lines 615-622 demands: an array of objects whose outline field is an array
of strings. -/
def conformingResponse : String :=
  "[\x7b\"title\":\"T\",\"description\":\"D\",\"outline\":[\"A\",\"B\",\"C\",\"D\"]\x7d]"

/-- Number of right-bracket characters in a character list (counted to
relate parsed array nodes to the input consumed by the JSON parser). -/
def countRB : List Char → Nat
  | [] => 0
  | c :: rest => (if c = ']' then 1 else 0) + countRB rest

mutual
/-- Number of array nodes in a JSON value (the topic parser's cast never
removes them, so a topic with an array outline contains at least one). -/
def jsonArrCount : Json → Nat
  | Json.null => 0
  | Json.bool _ => 0
  | Json.num _ => 0
  | Json.str _ => 0
  | Json.arr elems => 1 + jsonListArrCount elems
  | Json.obj fields => jsonPairsArrCount fields
def jsonListArrCount : List Json → Nat
  | [] => 0
  | j :: rest => jsonArrCount j + jsonListArrCount rest
def jsonPairsArrCount : List (String × Json) → Nat
  | [] => 0
  | p :: rest => jsonArrCount p.2 + jsonPairsArrCount rest
end


/-- src/main.ts line 63. -/
inductive Persona where
  | essay | blog | academic | twitter | newsletter | storytelling | custom
deriving Repr, DecidableEq

/-- src/main.ts line 64. -/
inductive ArticleLength where
  | short | medium | long
deriving Repr, DecidableEq

/-- src/main.ts lines 57-61. -/
structure TopicSuggestion where
  title : String
  description : String
  outline : List String
deriving Repr, DecidableEq

/-- JavaScript property lookup on a parsed JSON object: with duplicate
keys, JSON.parse keeps the last occurrence. -/
def jsonFieldLast (fields : List (String × Json)) (name : String) :
    Option Json :=
  (fields.reverse.find? (fun p => p.1 == name)).map (fun p => p.2)

def jsonAsString : Json → Option String
  | Json.str s => some s
  | _ => none

def jsonAsStringList : List Json → Option (List String)
  | [] => some []
  | j :: rest =>
    match jsonAsString j, jsonAsStringList rest with
    | some s, some tail => some (s :: tail)
    | _, _ => none

/-- Decode one parsed topic into the TopicSuggestion record shape declared
in the TypeScript interface.  This is what the typed wizard state can
faithfully hold, and also what the wizard's own code requires of a topic:
renderStep1Topics (src/main.ts line 1341) calls
topic.outline.slice(0,3).forEach — a real array — and the selection
handler (line 1350) spreads topic.outline into editedOutline.  A run
whose parsed topics lack this shape throws a TypeError during render,
before any topic/custom/Next control is attached, so no further wizard
event can occur in it. -/
def decodeTopicSuggestion (j : Json) : Option TopicSuggestion :=
  match j with
  | Json.obj fields =>
    match jsonFieldLast fields "title", jsonFieldLast fields "description",
          jsonFieldLast fields "outline" with
    | some tj, some dj, some (Json.arr oj) =>
      match jsonAsString tj, jsonAsString dj, jsonAsStringList oj with
      | some t, some d, some o =>
        some { title := t, description := d, outline := o }
      | _, _, _ => none
    | _, _, _ => none
  | _ => none

def decodeTopicList : List Json → Option (List TopicSuggestion)
  | [] => some []
  | j :: rest =>
    match decodeTopicSuggestion j, decodeTopicList rest with
    | some t, some ts => some (t :: ts)
    | _, _ => none

/-- JavaScript whitespace (the class matched by backslash-s in regular
expressions and removed by String.trim): ASCII whitespace, NBSP, BOM, and
the Unicode space and line separators. -/
def isJsWs (c : Char) : Bool :=
  c = ' ' || c = '\t' || c = '\n' || c = '\r' || c = '\x0b' || c = '\x0c' ||
  c = '\u00A0' || c = '\u1680' || ('\u2000' ≤ c && c ≤ '\u200A') ||
  c = '\u2028' || c = '\u2029' || c = '\u202F' || c = '\u205F' ||
  c = '\u3000' || c = '\uFEFF'

/-- JavaScript String.trim. -/
def jsTrim (s : String) : String :=
  String.mk (((s.toList.dropWhile (fun c => isJsWs c)).reverse.dropWhile
    (fun c => isJsWs c)).reverse)

/-- JavaScript truthiness of a nullable string: null and the empty string
are falsy. -/
def strTruthy : Option String → Bool
  | none => false
  | some s => if s = "" then false else true

def expectChars : List Char → List Char → Option (List Char)
  | [], l => some l
  | p :: ps, c :: cs => if c = p then expectChars ps cs else none
  | _ :: _, [] => none

def skipJsWsChars : List Char → List Char
  | [] => []
  | c :: cs => if isJsWs c then skipJsWsChars cs else c :: cs

/-- One attempted match of the material-marker regex at src/main.ts
line 1244: a greater-than sign, any JS whitespace, then the literal
quote-callout tag; returns the input remaining after the match. -/
def tryMatchQuoteMark : List Char → Option (List Char)
  | '>' :: rest => expectChars "[!quote]".toList (skipJsWsChars rest)
  | _ => none

/-- Count the non-overlapping matches of the quote-marker regex, scanning
left to right as the global regex match does (fuel-bounded by the input
length, which suffices since every step consumes at least one char). -/
def countQuoteMarks : Nat → List Char → Nat
  | 0, _ => 0
  | _, [] => 0
  | fuel + 1, c :: tail =>
    match tryMatchQuoteMark (c :: tail) with
    | some rest => 1 + countQuoteMarks fuel rest
    | none => countQuoteMarks fuel tail

/-- src/main.ts lines 1242-1246 (countMaterials): null content counts 0;
otherwise the number of quote-marker matches. -/
def countMaterials : Option String → Nat
  | none => 0
  | some content => countQuoteMarks content.length content.toList

/-- src/main.ts lines 1214-1225: the mutable fields of
GenerateArticleModal, plus a `closed` flag recording that close() was
called.  materialsContent and materialCount are set once in onOpen
(lines 1236-1237) and never change afterwards. -/
structure WizardState where
  step : Nat
  topics : List TopicSuggestion
  selectedTopic : Option TopicSuggestion
  editedOutline : List String
  selectedPersona : Persona
  selectedLength : ArticleLength
  customInstructions : String
  isLoading : Bool
  loadingStatus : String
  lastError : Option String
  materialsContent : Option String
  materialCount : Nat
  closed : Bool
deriving Repr, DecidableEq

/-- The state of a freshly opened wizard (field initialisers at src/main.ts
lines 1214-1225 and onOpen at lines 1232-1240), for a given materials note
content (none when the note could not be read). -/
def initWizard (materials : Option String) : WizardState :=
  { step := 1, topics := [], selectedTopic := none, editedOutline := [],
    selectedPersona := .essay, selectedLength := .medium,
    customInstructions := "", isLoading := false, loadingStatus := "",
    lastError := none, materialsContent := materials,
    materialCount := countMaterials materials, closed := false }

/-- The user and asynchronous events the modal can receive.  Each
constructor corresponds to one click/input handler in the source;
renderAutoLoad is render() automatically starting topic synthesis at
step 1, and topicsLoaded is the asynchronous completion of loadTopics.
As a type, topicsLoaded admits arbitrary payloads — an overapproximation
under which the per-event safety theorems are proved (they hold even
adversarially); the payloads the program can actually deliver are
characterised by realizableTopicsResult below, and reachability claims
quantify only over those (see ReachableWizard). -/
inductive Event where
  | renderAutoLoad
  | topicsLoaded (r : Except String (List TopicSuggestion))
  | selectTopic (i : Nat)
  | customTopic (input : String)
  | refreshTopics
  | step1Next
  | cancel
  | bannerRetry
  | outlineEdit (i : Nat) (v : String)
  | outlineDelete (i : Nat)
  | outlineAdd
  | step2Back
  | step2Next
  | step3Back
  | selectPersona (p : Persona)
  | selectLength (len : ArticleLength)
  | setCustomInstructions (v : String)
  | step3Generate

/-- render() (src/main.ts lines 1248-1298) reaches renderStep1Topics'
automatic loadTopics invocation — that is, rendering this state starts a
topic-synthesis provider call — iff the modal is open, not loading
(line 1278), at step 1 (line 1286), with at least one counted material
(line 1302), no topics yet (line 1316), and truthy materials content
(loadTopics, line 1574). -/
def renderInvokesSynthesis (s : WizardState) : Bool :=
  !s.closed && !s.isLoading && s.step == 1 &&
    decide (1 ≤ s.materialCount) && s.topics.isEmpty &&
    strTruthy s.materialsContent

/-- renderStep1Topics lines 1302-1311: with fewer than 1 counted material
the step-1 view is the empty state, whose only control is a close
button. -/
def step1ShowsEmptyState (s : WizardState) : Bool :=
  decide (s.materialCount < 1)

/-- One event step of an open wizard: the exact state mutations of the
corresponding handler in src/main.ts, guarded by the conditions under
which render() creates the control that fires the event (no control is
rendered while loading; step-1 list controls need at least one material
and loaded topics; step-2 controls need a selected topic, line 1403). -/
def wizardStepOpen (s : WizardState) : Event → WizardState
  | .renderAutoLoad =>
    if renderInvokesSynthesis s then
      { s with isLoading := true, loadingStatus := "소재 분석 중..." }
    else s
  | .topicsLoaded r =>
    if s.isLoading then
      match r with
      | .ok ts => { s with topics := ts, isLoading := false, lastError := none }
      | .error e => { s with isLoading := false, lastError := some e }
    else s
  | .selectTopic i =>
    if ¬s.isLoading ∧ s.step = 1 ∧ 1 ≤ s.materialCount then
      match s.topics.get? i with
      | some t => { s with selectedTopic := some t, editedOutline := t.outline }
      | none => s
    else s
  | .customTopic input =>
    if ¬s.isLoading ∧ s.step = 1 ∧ 1 ≤ s.materialCount ∧ s.topics ≠ [] then
      let title := jsTrim input
      if title ≠ "" then
        let t : TopicSuggestion :=
          { title := title, description := "사용자 직접 입력 주제",
            outline := ["서론", "본론 1", "본론 2", "결론"] }
        { s with selectedTopic := some t, editedOutline := t.outline,
                 step := 2 }
      else s
    else s
  | .refreshTopics =>
    if ¬s.isLoading ∧ s.step = 1 ∧ 1 ≤ s.materialCount ∧ s.topics ≠ [] then
      { s with topics := [], selectedTopic := none }
    else s
  | .step1Next =>
    if ¬s.isLoading ∧ s.step = 1 ∧ 1 ≤ s.materialCount ∧ s.topics ≠ [] then
      match s.selectedTopic with
      | some _ => { s with step := 2 }
      | none => s
    else s
  | .cancel =>
    if ¬s.isLoading ∧ s.step = 1 then { s with closed := true } else s
  | .bannerRetry =>
    if s.lastError ≠ none then
      let s1 := { s with lastError := none }
      if s1.step = 1 ∧ s1.topics = [] ∧ strTruthy s1.materialsContent then
        { s1 with isLoading := true, loadingStatus := "소재 분석 중..." }
      else s1
    else s
  | .outlineEdit i v =>
    if ¬s.isLoading ∧ s.step = 2 ∧ s.selectedTopic ≠ none then
      { s with editedOutline := s.editedOutline.set i v }
    else s
  | .outlineDelete i =>
    if ¬s.isLoading ∧ s.step = 2 ∧ s.selectedTopic ≠ none then
      if 2 < s.editedOutline.length then
        { s with editedOutline := s.editedOutline.eraseIdx i }
      else s
    else s
  | .outlineAdd =>
    if ¬s.isLoading ∧ s.step = 2 ∧ s.selectedTopic ≠ none then
      { s with editedOutline := s.editedOutline ++ ["새 항목"] }
    else s
  | .step2Back =>
    if ¬s.isLoading ∧ s.step = 2 ∧ s.selectedTopic ≠ none then
      { s with step := 1 }
    else s
  | .step2Next =>
    if ¬s.isLoading ∧ s.step = 2 then
      match s.selectedTopic with
      | some t =>
        { s with selectedTopic := some { t with outline := s.editedOutline },
                 step := 3 }
      | none => s
    else s
  | .step3Back =>
    if ¬s.isLoading ∧ s.step = 3 then { s with step := 2 } else s
  | .selectPersona p =>
    if ¬s.isLoading ∧ s.step = 3 then { s with selectedPersona := p } else s
  | .selectLength len =>
    if ¬s.isLoading ∧ s.step = 3 then { s with selectedLength := len } else s
  | .setCustomInstructions v =>
    if ¬s.isLoading ∧ s.step = 3 then { s with customInstructions := v }
    else s
  | .step3Generate =>
    if ¬s.isLoading ∧ s.step = 3 then { s with step := 4 } else s

/-- One event step of the wizard; a closed modal ignores everything. -/
def wizardStep (s : WizardState) (e : Event) : WizardState :=
  if s.closed then s else wizardStepOpen s e

/-- src/main.ts lines 1532-1571 (renderStep4Generate): guarded by a truthy
selectedTopic and materialsContent (line 1533); sets the loading substate;
the generateArticle call is `callAI` on the article prompt, abstracted
here by the provider stub, and note creation's nullable result is the
`noteCreated` input.  On a composer failure or a null note the catch at
lines 1565-1570 records the message in lastError, stops loading and
reverts step to 3; on success the note body is handed over and the modal
closes.  The transition is total: no exception escapes the wizard. -/
def renderStep4Generate (s : WizardState)
    (stub : Nat → Except String String) (noteCreated : Option String) :
    WizardState × Option String :=
  match s.selectedTopic with
  | none => (s, none)
  | some _ =>
    if strTruthy s.materialsContent then
      let s1 := { s with isLoading := true,
                         loadingStatus := "글 생성 준비 중..." }
      match (callAI stub).result with
      | .ok _article =>
        match noteCreated with
        | some file => ({ s1 with closed := true }, some file)
        | none =>
          ({ s1 with isLoading := false,
                     lastError := some "노트 생성에 실패했습니다.",
                     step := 3 }, none)
      | .error msg =>
        ({ s1 with isLoading := false, lastError := some msg, step := 3 },
         none)
    else (s, none)

/-- The completions the asynchronous loadTopics (src/main.ts
lines 1573-1595) can actually deliver into the typed wizard state: either
a thrown message (an aggregated callAI failure or the TopicParseError),
or the typed image of a successful generateTopicSuggestions result — each
parsed element decoded by decodeTopicSuggestion into the record shape the
wizard's rendering and selection code requires.  A successful parse whose
elements do not all decode bricks the modal at render time (TypeError at
src/main.ts line 1341, thrown before any control is attached), so no
subsequent wizard event occurs in such a run; the typed trace semantics
therefore only continues with decodable payloads. -/
def realizableTopicsResult : Except String (List TopicSuggestion) → Prop
  | .error _ => True
  | .ok ts => ∃ response tjson,
      generateTopicSuggestions response = .ok tjson ∧
      decodeTopicList tjson = some ts

/-- An event is realizable when its payload can actually be produced by
the program: only the synthesizer completion carries a payload computed
by in-scope code; every other event is free user input. -/
def realizableEvent : Event → Prop
  | .topicsLoaded r => realizableTopicsResult r
  | _ => True

/-- States of the wizard reachable from opening it on some materials note
content, through events whose payloads the program can produce. -/
inductive ReachableWizard : WizardState → Prop where
  | init (c : Option String) : ReachableWizard (initWizard c)
  | step (s : WizardState) (e : Event) (hs : ReachableWizard s)
      (he : realizableEvent e) : ReachableWizard (wizardStep s e)

/-- A materials note content holding exactly one collected material, in
the callout format appended by appendMaterial (src/main.ts line 444). -/
def oneQuoteContent : String :=
  "> [!quote] [[Src]]\n> Q\n>\n> **My Thought**: T\n\n---\n"

/-- A concrete topic record used to build wizard states for witnesses. -/
def shortOutlineTopic : TopicSuggestion :=
  { title := "T", description := "D", outline := ["only"] }

/-- A wizard state at step 2 with a two-entry outline, for the C6
witness. -/
def c6WitnessState : WizardState :=
  { initWizard (some oneQuoteContent) with
      step := 2, selectedTopic := some shortOutlineTopic,
      editedOutline := ["one", "two"] }

/-- A wizard state entering step 4, for the C5 witness. -/
def c5State : WizardState :=
  { initWizard (some oneQuoteContent) with
      step := 4, selectedTopic := some shortOutlineTopic,
      editedOutline := ["a", "b"] }

/-- src/main.ts line 884: the characters replaced by a dash in article
note file names. -/
def forbiddenFileChars : List Char :=
  ['\\', '/', ':', '*', '?', '"', '<', '>', '|']

def sanitizeFileChar (c : Char) : Char :=
  if c ∈ forbiddenFileChars then '-' else c

/-- src/main.ts line 884: the note base name — every forbidden character
of the topic title replaced by a dash, then truncated to at most 50
characters. -/
def articleBaseName (title : String) : String :=
  String.mk ((title.toList.map sanitizeFileChar).take 50)

/-- src/main.ts lines 885-893: the candidate path for a given counter
(counter 0 is the initial name without a counter; the while loop then
tries 1, 2, ...).  An empty folder (falsy in JS) omits the folder part. -/
def articleCandidate (folder base : String) (k : Nat) : String :=
  let name := if k = 0 then base ++ ".md"
              else base ++ " " ++ Nat.repr k ++ ".md"
  if folder = "" then name else folder ++ "/" ++ name

def maxStringLength (l : List String) : Nat :=
  l.foldr (fun s m => max s.length m) 0

/-- Auxiliary fact: members of a string list are no longer than the
maximum length. -/
def length_le_maxStringLength :
    ∀ (l : List String) (s : String), s ∈ l → s.length ≤ maxStringLength l := by
  intro l
  induction l with
  | nil => intro s hs; exact absurd hs (List.not_mem_nil s)
  | cons a t ih =>
    intro s hs
    rw [List.mem_cons] at hs
    rcases hs with h | h
    · subst h; exact Nat.le_max_left _ _
    · exact Nat.le_trans (ih s h) (Nat.le_max_right _ _)

/-- Auxiliary fact: the digit accumulator of Nat.toDigitsCore never
shrinks. -/
def toDigitsCore_length_ge :
    ∀ (fuel n : Nat) (ds : List Char),
      ds.length ≤ (Nat.toDigitsCore 10 fuel n ds).length := by
  intro fuel
  induction fuel with
  | zero => intro n ds; exact Nat.le_refl _
  | succ f ih =>
    intro n ds
    rw [Nat.toDigitsCore]
    split
    · simp
    · exact Nat.le_trans (by simp) (ih (n / 10) (Nat.digitChar (n % 10) :: ds))

/-- Auxiliary fact: a number at least 10 ^ m has at least m + 1 decimal
digits (relative to the accumulator). -/
def toDigitsCore_length_lower :
    ∀ (m fuel n : Nat) (ds : List Char), m < fuel → 10 ^ m ≤ n →
      m + 1 + ds.length ≤ (Nat.toDigitsCore 10 fuel n ds).length := by
  intro m
  induction m with
  | zero =>
    intro fuel n ds hf hn
    match fuel, hf with
    | f + 1, _ =>
      rw [Nat.toDigitsCore]
      split
      · simp; omega
      · have h := toDigitsCore_length_ge f (n / 10)
          (Nat.digitChar (n % 10) :: ds)
        simp at h ⊢
        omega
  | succ k ih =>
    intro fuel n ds hf hn
    match fuel, hf with
    | f + 1, hf =>
      have h10 : (10 : Nat) ^ k ≤ n / 10 := by
        rw [Nat.le_div_iff_mul_le (by norm_num)]
        calc 10 ^ k * 10 = 10 ^ (k + 1) := by rw [Nat.pow_succ]
          _ ≤ n := hn
      have hpos : 1 ≤ (10 : Nat) ^ k := Nat.one_le_pow _ _ (by norm_num)
      have hne : ¬ n / 10 = 0 := by omega
      rw [Nat.toDigitsCore]
      simp only [hne, if_false]
      have hk : k < f := by omega
      have h := ih f (n / 10) (Nat.digitChar (n % 10) :: ds) hk h10
      simp at h ⊢
      omega

/-- Auxiliary fact: the decimal representation of a number at least
10 ^ m has at least m + 1 characters. -/
def repr_length_lower (m n : Nat) (h : 10 ^ m ≤ n) :
    m + 1 ≤ (Nat.repr n).length := by
  have h1 : m < 10 ^ m := Nat.lt_pow_self (by norm_num) m
  have hm : m < n + 1 := by omega
  have h2 := toDigitsCore_length_lower m (n + 1) n [] hm h
  simpa [Nat.repr, Nat.toDigits] using h2

/-- Auxiliary fact: a counter candidate is at least as long as the decimal
counter it embeds. -/
def le_articleCandidate_length (folder base : String) (k : Nat)
    (hk : ¬ k = 0) :
    (Nat.repr k).length ≤ (articleCandidate folder base k).length := by
  simp only [articleCandidate, hk, if_false]
  split <;> simp [String.length_append] <;> omega

/-- Auxiliary fact: some counter yields a candidate path outside any given
finite set of existing paths (a candidate with a sufficiently long decimal
counter is longer than every existing path). -/
def articleCandidate_free_exists (existing : List String)
    (folder base : String) :
    ∃ k, articleCandidate folder base k ∉ existing := by
  refine ⟨10 ^ maxStringLength existing, fun hmem => ?_⟩
  have hk0 : ¬ (10 : Nat) ^ maxStringLength existing = 0 :=
    Nat.pos_iff_ne_zero.mp (Nat.pos_pow_of_pos _ (by norm_num))
  have hlen1 := length_le_maxStringLength existing _ hmem
  have hlen2 := repr_length_lower (maxStringLength existing)
    (10 ^ maxStringLength existing) (Nat.le_refl _)
  have hlen3 := le_articleCandidate_length folder base _ hk0
  omega

/-- src/main.ts lines 885-893: the collision-avoiding path search — the
while loop returns the candidate of the first counter (in the order
0, 1, 2, ...) whose path is not an existing file's path; Nat.find computes
precisely that least counter.  `existing` abstracts the domain of
vault.getAbstractFileByPath. -/
def resolveArticlePath (existing : List String) (folder base : String) :
    String :=
  articleCandidate folder base
    (Nat.find (articleCandidate_free_exists existing folder base))

/-- src/main.ts lines 895-898: basename of the materials note — strip a
trailing .md, take the last path segment. -/
def stripMdSuffix (s : String) : String :=
  if s.endsWith ".md" then s.dropRight 3 else s

def materialBasenameOf (path : String) : String :=
  (((stripMdSuffix path).splitOn "/").getLast?).getD ""

/-- src/main.ts lines 900-915: the full note body template — a level-1
heading with the topic title, the info callout with the materials backlink
and the ISO date, a horizontal rule, the article text verbatim, another
rule, and the Sources section repeating the backlink. -/
def articleNoteBody (content : String) (topic : TopicSuggestion)
    (materialNotePath isoDate : String) : String :=
  let mb := materialBasenameOf materialNotePath
  "# " ++ topic.title ++
  "\n\n> [!info] Generated with Thinking Tool\n> Materials: [[" ++ mb ++
  "]]\n> Generated: " ++ isoDate ++
  "\n\n---\n\n" ++ content ++ "\n\n---\n\n## Sources\n\n- Materials: [[" ++
  mb ++ "]]\n"

-- ===== Theorems =====

theorem callAILoop_calls_pos (stub : Nat → Except String String)
    (attempt r : Nat) (lastError : Option String) :
    1 ≤ (callAILoop stub attempt (r + 1) lastError).calls := by
  unfold callAILoop
  cases h : stub attempt with
  | ok text => simp
  | error e =>
    simp only
    split
    · simp
    · simp

/-- C2 (confirmed): with a stub failing on attempts 1 and 2 and succeeding
on attempt 3, `callAI` makes exactly 3 underlying calls, sleeps exactly two
backoff waits of `RETRY_DELAY * 2 ^ 0 = 1000` ms (1 s) and
`RETRY_DELAY * 2 ^ 1 = 2000` ms (2 s), and returns the attempt-3 result. -/
theorem claim_C2_retry_law (stub : Nat → Except String String)
    (e1 e2 v : String)
    (h1 : stub 1 = .error e1) (h2 : stub 2 = .error e2)
    (h3 : stub 3 = .ok v) :
    (callAI stub).calls = 3 ∧
    (callAI stub).waits = [RETRY_DELAY * 2 ^ 0, RETRY_DELAY * 2 ^ 1] ∧
    (callAI stub).waits = [1000, 2000] ∧
    (callAI stub).result = .ok v := by
  have hcall : callAI stub = callAILoop stub 1 3 none := rfl
  rw [hcall]
  show (callAILoop stub 1 (2 + 1) none).calls = 3 ∧ _
  simp only [callAILoop, h1, h2, h3]
  norm_num [RETRY_DELAY]

/-- Witness for C2 at a concrete stub. -/
theorem claim_C2_witness :
    (callAI (fun n => if n = 3 then .ok "third" else .error "temp")).calls = 3 ∧
    (callAI (fun n => if n = 3 then .ok "third" else .error "temp")).waits
      = [1000, 2000] ∧
    (callAI (fun n => if n = 3 then .ok "third" else .error "temp")).result
      = .ok "third" := by
  have h := claim_C2_retry_law
    (fun n => if n = 3 then .ok "third" else .error "temp")
    "temp" "temp" "third" rfl rfl rfl
  exact ⟨h.1, h.2.2.1, h.2.2.2⟩

/-- Shared helper: the complete trace of `callAI` when all three attempts
fail. -/
theorem callAI_all_fail (stub : Nat → Except String String)
    (e1 e2 e3 : String)
    (h1 : stub 1 = .error e1) (h2 : stub 2 = .error e2)
    (h3 : stub 3 = .error e3) :
    (callAI stub).calls = 3 ∧
    (callAI stub).waits = [1000, 2000] ∧
    (callAI stub).result = .error (exhaustedMsg (some e3)) := by
  have hcall : callAI stub = callAILoop stub 1 3 none := rfl
  rw [hcall]
  show (callAILoop stub 1 (2 + 1) none).calls = 3 ∧ _
  simp only [callAILoop, h1, h2, h3]
  norm_num [RETRY_DELAY]

/-- C4 (confirmed): when all `MAX_RETRIES = 3` attempts fail, `callAI`
raises exactly one aggregated failure whose message embeds the message of
the last (attempt-3) underlying error. -/
theorem claim_C4_exhausted (stub : Nat → Except String String)
    (e1 e2 e3 : String)
    (h1 : stub 1 = .error e1) (h2 : stub 2 = .error e2)
    (h3 : stub 3 = .error e3) :
    (callAI stub).calls = 3 ∧
    (callAI stub).result = .error (exhaustedMsg (some e3)) ∧
    ∃ pre post, exhaustedMsg (some e3) = pre ++ e3 ++ post := by
  obtain ⟨hc, -, hr⟩ := callAI_all_fail stub e1 e2 e3 h1 h2 h3
  refine ⟨hc, hr, ?_⟩
  by_cases he : e3 = ""
  · exact ⟨exhaustedMsg (some e3), "", by simp [he]⟩
  · refine ⟨"AI 호출 실패 (" ++ Nat.repr MAX_RETRIES ++ "회 시도): ", "", ?_⟩
    simp [exhaustedMsg, he]

/-- Witness for C4 at a concrete always-failing stub. -/
theorem claim_C4_witness :
    (callAI (fun _ => .error "boom")).calls = 3 ∧
    (callAI (fun _ => .error "boom")).result
      = .error (exhaustedMsg (some "boom")) := by
  have h := claim_C4_exhausted (fun _ => .error "boom")
    "boom" "boom" "boom" rfl rfl rfl
  exact ⟨h.1, h.2.1⟩

/-- C1 (counterexample): the claim asserts that a first-attempt auth
failure makes exactly one underlying call and surfaces with zero backoff
waits.  With a stub failing every attempt with the missing-credential auth
error, `callAI` in fact makes 3 calls and sleeps two backoff waits: the
`catch` in src/main.ts lines 714-723 retries every error without
classification. -/
theorem claim_C1_counterexample :
    (callAI authFailStub).calls = 3 ∧ (callAI authFailStub).calls ≠ 1 ∧
    (callAI authFailStub).waits = [1000, 2000] ∧
    (callAI authFailStub).waits ≠ [] := by
  refine ⟨?_, by decide, ?_, by decide⟩ <;> decide

/-- C1 (amended): a first-attempt failure is never short-circuited,
whatever the error — including the auth (missing/invalid credential) and
content-blocked messages: a backoff wait of `RETRY_DELAY * 2 ^ 0 = 1000` ms
occurs and at least one further underlying call is made, consuming the
remaining retry budget like any other failure. -/
theorem claim_C1_amended (stub : Nat → Except String String) (e1 : String)
    (h1 : stub 1 = .error e1) :
    2 ≤ (callAI stub).calls ∧
    (callAI stub).waits ≠ [] ∧
    (callAI stub).waits.head? = some 1000 := by
  have hcall : callAI stub = callAILoop stub 1 3 none := rfl
  rw [hcall]
  show 2 ≤ (callAILoop stub 1 (2 + 1) none).calls ∧ _
  cases h2 : stub 2 with
  | ok t2 => simp [callAILoop, h1, h2, RETRY_DELAY]
  | error e2 =>
    cases h3 : stub 3 with
    | ok t3 => simp [callAILoop, h1, h2, h3, RETRY_DELAY]
    | error e3 => simp [callAILoop, h1, h2, h3, RETRY_DELAY]

/-- Witness for the amended C1 at the concrete auth-failing stub. -/
theorem claim_C1_witness :
    2 ≤ (callAI authFailStub).calls ∧
    (callAI authFailStub).waits.head? = some 1000 := by
  have h := claim_C1_amended authFailStub openAIMissingKeyMsg rfl
  exact ⟨h.1, h.2.2⟩

/-- C3 (code bug): on a response that is exactly the JSON format the
prompt demands, the lazy regex captures an unbalanced fragment — it stops
at the first right bracket, the one closing the inner outline array — so
JSON.parse fails and the code raises TopicParseError for its own happy
path; the balanced extraction the spec describes yields the topic. -/
theorem claim_C3_lazy_regex_bug :
    generateTopicSuggestions conformingResponse
      = Except.error topicParseFailMsg ∧
    generateTopicSuggestionsBalanced conformingResponse
      = Except.ok [Json.obj
          [("title", Json.str "T"), ("description", Json.str "D"),
           ("outline", Json.arr
             [Json.str "A", Json.str "B", Json.str "C", Json.str "D"])]] ∧
    extractLazyBracket conformingResponse.toList
      = some ("[\x7b\"title\":\"T\",\"description\":\"D\",\"outline\":[\"A\",\"B\",\"C\",\"D\"]").toList := by
  exact ⟨rfl, rfl, rfl⟩

-- Helper lemmas for the realizability analysis: every JSON array node
-- consumes one literal right bracket from the input, while a lazy-regex
-- fragment contains exactly one right bracket, so a parse-successful
-- fragment yields topics containing no array values at all.

theorem countRB_append (a b : List Char) :
    countRB (a ++ b) = countRB a + countRB b := by
  induction a with
  | nil => simp [countRB]
  | cons c t ih =>
    show countRB (c :: (t ++ b)) = _
    simp only [countRB, ih]
    omega

theorem countRB_le_of_suffix {l1 l2 : List Char} (h : l1 <:+ l2) :
    countRB l1 ≤ countRB l2 := by
  obtain ⟨t, ht⟩ := h
  rw [← ht, countRB_append]
  omega

theorem countRB_cons_le (c : Char) (l : List Char) :
    countRB l ≤ countRB (c :: l) := by
  simp only [countRB]; split <;> omega

theorem skipJsonWs_suffix (l : List Char) : skipJsonWs l <:+ l := by
  induction l with
  | nil => simp [skipJsonWs]
  | cons c t ih =>
    simp only [skipJsonWs]
    split
    · exact ih.trans (List.suffix_cons c t)
    · exact List.suffix_refl _

theorem parseStringBody_suffix :
    ∀ l content rest, parseStringBody l = some (content, rest) → rest <:+ l := by
  intro l
  induction l using parseStringBody.induct <;> intro content rest h <;>
    simp only [parseStringBody, Option.map_eq_some', Option.some.injEq,
      Prod.mk.injEq] at h
  all_goals try exact Option.noConfusion h
  all_goals try
    (rename_i h1 h2 h3 h4 r2 a b c d hv4 hv3 hv2 hv1 ih;
     rw [hv1, hv2, hv3, hv4] at h;
     simp only [Option.map_eq_some', Option.some.injEq, Prod.mk.injEq] at h;
     obtain ⟨⟨pc, pr⟩, hp, hc, rfl⟩ := h;
     exact (ih pc pr hp).trans ((List.suffix_cons _ _).trans
       ((List.suffix_cons _ _).trans ((List.suffix_cons _ _).trans
       ((List.suffix_cons _ _).trans ((List.suffix_cons _ _).trans
       (List.suffix_cons _ _)))))))
  all_goals try (obtain ⟨rfl, rfl⟩ := h; exact List.suffix_cons _ _)
  all_goals try
    (rename_i r ih;
     obtain ⟨⟨pc, pr⟩, hp, hc, rfl⟩ := h;
     exact (ih pc pr hp).trans
       ((List.suffix_cons _ _).trans (List.suffix_cons _ _)))
  all_goals
    (rename_i c r ih;
     split at h <;>
       first
       | exact Option.noConfusion h
       | (simp only [Option.map_eq_some', Option.some.injEq, Prod.mk.injEq] at h;
          obtain ⟨⟨pc, pr⟩, hp, hc, rfl⟩ := h;
          exact (ih pc pr hp).trans (List.suffix_cons _ _)))

theorem takeDigits_suffix (l : List Char) : (takeDigits l).2 <:+ l := by
  induction l with
  | nil => exact List.suffix_refl _
  | cons c t ih =>
    simp only [takeDigits]
    split
    · exact ih.trans (List.suffix_cons c t)
    · exact List.suffix_refl _

theorem parseFracPart_suffix :
    ∀ l fr rest, parseFracPart l = some (fr, rest) → rest <:+ l := by
  intro l fr rest h
  unfold parseFracPart at h
  split at h
  · rename_i r
    split at h
    · exact Option.noConfusion h
    · rename_i ds l2 heq
      simp only [Option.some.injEq, Prod.mk.injEq] at h
      obtain ⟨h1, rfl⟩ := h
      have hs := takeDigits_suffix r
      rw [heq] at hs
      exact hs.trans (List.suffix_cons _ _)
  · simp only [Option.some.injEq, Prod.mk.injEq] at h
    obtain ⟨h1, rfl⟩ := h
    exact List.suffix_refl _

theorem parseExpPart_suffix :
    ∀ l ex rest, parseExpPart l = some (ex, rest) → rest <:+ l := by
  intro l ex rest h
  unfold parseExpPart at h
  split at h
  · split at h
    · split at h <;> simp only [] at h <;> split at h <;>
        first
        | exact Option.noConfusion h
        | (rename_i ds l2 heq;
           simp only [Option.some.injEq, Prod.mk.injEq] at h;
           obtain ⟨h1, rfl⟩ := h;
           have h2 := congrArg Prod.snd heq;
           simp at h2;
           rw [← h2];
           refine (takeDigits_suffix _).trans ?_;
           first
           | exact List.suffix_refl _
           | exact List.suffix_cons _ _
           | exact (List.suffix_cons _ _).trans (List.suffix_cons _ _))
    · simp only [Option.some.injEq, Prod.mk.injEq] at h
      obtain ⟨h1, rfl⟩ := h
      exact List.suffix_refl _
  · simp only [Option.some.injEq, Prod.mk.injEq] at h
    obtain ⟨h1, rfl⟩ := h
    exact List.suffix_refl _

theorem parseNumberTail_suffix :
    ∀ l t rest, parseNumberTail l = some (t, rest) → rest <:+ l := by
  intro l t rest h
  unfold parseNumberTail at h
  split at h
  · exact Option.noConfusion h
  · rename_i fr l1 hfr
    split at h
    · exact Option.noConfusion h
    · rename_i ex l2 hex
      simp only [Option.some.injEq, Prod.mk.injEq] at h
      obtain ⟨h1, rfl⟩ := h
      exact (parseExpPart_suffix l1 ex l2 hex).trans (parseFracPart_suffix l fr l1 hfr)

theorem parseNumberLexeme_suffix :
    ∀ l lex rest, parseNumberLexeme l = some (lex, rest) → rest <:+ l := by
  intro l lex rest h
  unfold parseNumberLexeme at h
  split at h <;> simp only [] at h <;> split at h <;>
    try exact Option.noConfusion h
  all_goals split at h
  all_goals try split at h
  all_goals try exact Option.noConfusion h
  all_goals
    (simp only [Option.map_eq_some'] at h;
     obtain ⟨⟨pc, pr⟩, hp, hh⟩ := h;
     simp only [Prod.mk.injEq] at hh;
     obtain ⟨h1, rfl⟩ := hh;
     have hs := parseNumberTail_suffix _ pc pr hp;
     first
     | exact hs.trans (List.suffix_cons _ _)
     | exact hs.trans ((List.suffix_cons _ _).trans (List.suffix_cons _ _))
     | exact (hs.trans (takeDigits_suffix _)).trans (List.suffix_cons _ _)
     | exact (hs.trans (takeDigits_suffix _)).trans
         ((List.suffix_cons _ _).trans (List.suffix_cons _ _)))

theorem jsonListArrCount_append (a b : List Json) :
    jsonListArrCount (a ++ b) = jsonListArrCount a + jsonListArrCount b := by
  induction a with
  | nil => simp [jsonListArrCount]
  | cons j t ih =>
    show jsonListArrCount (j :: (t ++ b)) = _
    rw [jsonListArrCount, ih, jsonListArrCount]
    omega

theorem jsonPairsArrCount_append (a b : List (String × Json)) :
    jsonPairsArrCount (a ++ b)
      = jsonPairsArrCount a + jsonPairsArrCount b := by
  induction a with
  | nil => simp [jsonPairsArrCount]
  | cons p t ih =>
    show jsonPairsArrCount (p :: (t ++ b)) = _
    rw [jsonPairsArrCount, ih, jsonPairsArrCount]
    omega

theorem jsonArrCount_le_of_mem {j : Json} {l : List Json} (h : j ∈ l) :
    jsonArrCount j ≤ jsonListArrCount l := by
  induction l with
  | nil => cases h
  | cons a t ih =>
    rw [List.mem_cons] at h
    rw [jsonListArrCount]
    rcases h with rfl | h
    · omega
    · have := ih h
      omega

theorem countRB_skipJsonWs_le (l : List Char) :
    countRB (skipJsonWs l) ≤ countRB l :=
  countRB_le_of_suffix (skipJsonWs_suffix l)

/-- Key counting invariant: a parsed JSON value contains at most as many
array nodes as there are right-bracket characters consumed from the
input, since every array (empty or not) is closed by a literal right
bracket. -/
theorem parseJson_countRB : ∀ fuel : Nat,
    (∀ l v rest, parseJsonValue fuel l = some (v, rest) →
      jsonArrCount v + countRB rest ≤ countRB l) ∧
    (∀ l acc v rest, parseJsonItems fuel l acc = some (v, rest) →
      jsonArrCount v + countRB rest ≤ jsonListArrCount acc + countRB l) ∧
    (∀ l acc v rest, parseJsonMembers fuel l acc = some (v, rest) →
      jsonArrCount v + countRB rest ≤ jsonPairsArrCount acc + countRB l) := by
  intro fuel
  induction fuel with
  | zero =>
    refine ⟨?_, ?_, ?_⟩
    · intro l v rest h; exact Option.noConfusion h
    · intro l acc v rest h; exact Option.noConfusion h
    · intro l acc v rest h; exact Option.noConfusion h
  | succ f ih =>
    obtain ⟨ihV, ihI, ihM⟩ := ih
    refine ⟨?_, ?_, ?_⟩
    · intro l v rest h
      rw [parseJsonValue] at h
      split at h
      · exact Option.noConfusion h
      · rename_i c rest0 hsw
        have hc0 : countRB (c :: rest0) ≤ countRB l := by
          rw [← hsw]; exact countRB_skipJsonWs_le l
        have hc1 : countRB rest0 ≤ countRB (c :: rest0) := countRB_cons_le c rest0
        split_ifs at h
        · -- object
          split at h
          · rename_i r2 heq
            simp only [Option.some.injEq, Prod.mk.injEq] at h
            obtain ⟨rfl, rfl⟩ := h
            have c1 : countRB ('\x7d' :: r2) ≤ countRB rest0 := by
              rw [← heq]; exact countRB_skipJsonWs_le rest0
            have c2 := countRB_cons_le '\x7d' r2
            simp only [jsonArrCount, jsonPairsArrCount]
            omega
          · have hr := ihM _ [] v rest h
            have c1 : countRB (skipJsonWs rest0) ≤ countRB rest0 :=
              countRB_skipJsonWs_le rest0
            simp only [jsonPairsArrCount] at hr
            omega
        · -- array
          split at h
          · rename_i r2 heq
            simp only [Option.some.injEq, Prod.mk.injEq] at h
            obtain ⟨rfl, rfl⟩ := h
            have c1 : countRB (']' :: r2) ≤ countRB rest0 := by
              rw [← heq]; exact countRB_skipJsonWs_le rest0
            have c2 : countRB (']' :: r2) = 1 + countRB r2 := by
              simp [countRB]
            simp only [jsonArrCount, jsonListArrCount]
            omega
          · have hr := ihI _ [] v rest h
            have c1 : countRB (skipJsonWs rest0) ≤ countRB rest0 :=
              countRB_skipJsonWs_le rest0
            simp only [jsonListArrCount] at hr
            omega
        · -- string
          simp only [Option.map_eq_some'] at h
          obtain ⟨⟨pc, pr⟩, hp, hh⟩ := h
          simp only [Prod.mk.injEq] at hh
          obtain ⟨rfl, rfl⟩ := hh
          have c1 : countRB pr ≤ countRB rest0 :=
            countRB_le_of_suffix (parseStringBody_suffix rest0 pc pr hp)
          simp only [jsonArrCount]
          omega
        · -- true literal
          split at h
          · rename_i rest2
            simp only [Option.some.injEq, Prod.mk.injEq] at h
            obtain ⟨rfl, rfl⟩ := h
            have c1 := countRB_cons_le 'r' ('u' :: 'e' :: rest2)
            have c2 := countRB_cons_le 'u' ('e' :: rest2)
            have c3 := countRB_cons_le 'e' rest2
            simp only [jsonArrCount]
            omega
          · exact Option.noConfusion h
        · -- false literal
          split at h
          · rename_i rest2
            simp only [Option.some.injEq, Prod.mk.injEq] at h
            obtain ⟨rfl, rfl⟩ := h
            have c1 := countRB_cons_le 'a' ('l' :: 's' :: 'e' :: rest2)
            have c2 := countRB_cons_le 'l' ('s' :: 'e' :: rest2)
            have c3 := countRB_cons_le 's' ('e' :: rest2)
            have c4 := countRB_cons_le 'e' rest2
            simp only [jsonArrCount]
            omega
          · exact Option.noConfusion h
        · -- null literal
          split at h
          · rename_i rest2
            simp only [Option.some.injEq, Prod.mk.injEq] at h
            obtain ⟨rfl, rfl⟩ := h
            have c1 := countRB_cons_le 'u' ('l' :: 'l' :: rest2)
            have c2 := countRB_cons_le 'l' ('l' :: rest2)
            have c3 := countRB_cons_le 'l' rest2
            simp only [jsonArrCount]
            omega
          · exact Option.noConfusion h
        · -- number
          simp only [Option.map_eq_some'] at h
          obtain ⟨⟨pc, pr⟩, hp, hh⟩ := h
          simp only [Prod.mk.injEq] at hh
          obtain ⟨rfl, rfl⟩ := hh
          have c1 : countRB pr ≤ countRB (c :: rest0) :=
            countRB_le_of_suffix (parseNumberLexeme_suffix _ pc pr hp)
          simp only [jsonArrCount]
          omega
    · intro l acc v rest h
      rw [parseJsonItems] at h
      split at h
      · exact Option.noConfusion h
      · rename_i u rest1 hu
        have hu2 := ihV l u rest1 hu
        split at h
        · rename_i r2 heq
          have hr := ihI r2 (acc ++ [u]) v rest h
          rw [jsonListArrCount_append] at hr
          simp only [jsonListArrCount] at hr
          have c1 : countRB (',' :: r2) ≤ countRB rest1 := by
            rw [← heq]; exact countRB_skipJsonWs_le rest1
          have c2 := countRB_cons_le ',' r2
          omega
        · rename_i r2 heq
          simp only [Option.some.injEq, Prod.mk.injEq] at h
          obtain ⟨rfl, rfl⟩ := h
          have c1 : countRB (']' :: r2) ≤ countRB rest1 := by
            rw [← heq]; exact countRB_skipJsonWs_le rest1
          have c2 : countRB (']' :: r2) = 1 + countRB r2 := by
            simp [countRB]
          have c3 : jsonArrCount (Json.arr (acc ++ [u]))
              = 1 + (jsonListArrCount acc + (jsonArrCount u + 0)) := by
            rw [jsonArrCount, jsonListArrCount_append]
            simp only [jsonListArrCount]
          omega
        · exact Option.noConfusion h
    · intro l acc v rest h
      rw [parseJsonMembers] at h
      split at h
      · rename_i rest0 hsw
        have hc0 : countRB ('"' :: rest0) ≤ countRB l := by
          rw [← hsw]; exact countRB_skipJsonWs_le l
        have hc1 : countRB rest0 ≤ countRB ('"' :: rest0) :=
          countRB_cons_le '"' rest0
        split at h
        · exact Option.noConfusion h
        · rename_i key rest2 hsb
          have hc2 : countRB rest2 ≤ countRB rest0 :=
            countRB_le_of_suffix (parseStringBody_suffix rest0 key rest2 hsb)
          split at h
          · rename_i rest3 heq3
            have hc3 : countRB (':' :: rest3) ≤ countRB rest2 := by
              rw [← heq3]; exact countRB_skipJsonWs_le rest2
            have hc4 := countRB_cons_le ':' rest3
            split at h
            · exact Option.noConfusion h
            · rename_i u rest4 hu
              have hu2 := ihV rest3 u rest4 hu
              split at h
              · rename_i rest5 heq5
                have hr := ihM rest5 (acc ++ [(String.mk key, u)]) v rest h
                rw [jsonPairsArrCount_append] at hr
                simp only [jsonPairsArrCount] at hr
                have c1 : countRB (',' :: rest5) ≤ countRB rest4 := by
                  rw [← heq5]; exact countRB_skipJsonWs_le rest4
                have c2 := countRB_cons_le ',' rest5
                omega
              · rename_i rest5 heq5
                simp only [Option.some.injEq, Prod.mk.injEq] at h
                obtain ⟨rfl, rfl⟩ := h
                have c1 : countRB ('\x7d' :: rest5) ≤ countRB rest4 := by
                  rw [← heq5]; exact countRB_skipJsonWs_le rest4
                have c2 := countRB_cons_le '\x7d' rest5
                have c3 : jsonArrCount (Json.obj (acc ++ [(String.mk key, u)]))
                    = jsonPairsArrCount acc + (jsonArrCount u + 0) := by
                  rw [jsonArrCount, jsonPairsArrCount_append]
                  simp only [jsonPairsArrCount]
                omega
              · exact Option.noConfusion h
          · exact Option.noConfusion h
      · exact Option.noConfusion h

theorem takeThroughRBracket_countRB :
    ∀ l frag, takeThroughRBracket l = some frag → countRB frag = 1 := by
  intro l
  induction l with
  | nil => intro frag h; exact Option.noConfusion h
  | cons c cs ih =>
    intro frag h
    rw [takeThroughRBracket] at h
    split at h
    · rename_i hc
      simp only [Option.some.injEq] at h
      subst h
      simp [countRB, hc]
    · rename_i hc
      simp only [Option.map_eq_some'] at h
      obtain ⟨f2, hf, rfl⟩ := h
      simp [countRB, hc, ih f2 hf]

theorem extractLazyBracket_countRB :
    ∀ l frag, extractLazyBracket l = some frag → countRB frag = 1 := by
  intro l
  induction l with
  | nil => intro frag h; exact Option.noConfusion h
  | cons c cs ih =>
    intro frag h
    rw [extractLazyBracket] at h
    split at h
    · rename_i hc
      subst hc
      simp only [Option.map_eq_some'] at h
      obtain ⟨f2, hf, rfl⟩ := h
      simp [countRB, takeThroughRBracket_countRB cs f2 hf]
    · exact ih frag h

theorem jsonParse_arrCount (s : String) (v : Json) (h : jsonParse s = some v) :
    jsonArrCount v ≤ countRB s.toList := by
  unfold jsonParse at h
  split at h
  · rename_i v2 rest hp
    split at h
    · simp only [Option.some.injEq] at h
      subst h
      have hb := (parseJson_countRB (2 * s.length + 8)).1 s.toList _ _ hp
      omega
    · exact Option.noConfusion h
  · exact Option.noConfusion h

theorem generateTopicSuggestions_no_array (response : String)
    (topics : List Json) (h : generateTopicSuggestions response = .ok topics) :
    ∀ t ∈ topics, jsonArrCount t = 0 := by
  unfold generateTopicSuggestions at h
  split at h
  · rename_i frag hfrag
    split at h
    · rename_i elems hparse
      split at h
      · rename_i hpos
        simp only [Except.ok.injEq] at h
        subst h
        have hc : countRB frag = 1 := extractLazyBracket_countRB _ frag hfrag
        have hb := jsonParse_arrCount (String.mk frag) (Json.arr elems) hparse
        have hfr : (String.mk frag).toList = frag := rfl
        rw [hfr, hc] at hb
        have h2 : jsonArrCount (Json.arr elems) = 1 + jsonListArrCount elems := by
          rw [jsonArrCount]
        intro t ht
        have hmem : t ∈ elems := List.mem_of_mem_take ht
        have h3 := jsonArrCount_le_of_mem hmem
        omega
      · exact Except.noConfusion h
    · exact Except.noConfusion h
  · exact Except.noConfusion h

theorem jsonFieldLast_mem {fields : List (String × Json)} {name : String}
    {v : Json} (h : jsonFieldLast fields name = some v) :
    ∃ p, p ∈ fields ∧ p.2 = v := by
  unfold jsonFieldLast at h
  simp only [Option.map_eq_some'] at h
  obtain ⟨p, hp, rfl⟩ := h
  have hm := List.mem_of_find?_eq_some hp
  exact ⟨p, List.mem_reverse.mp hm, rfl⟩

theorem jsonArrCount_le_of_pair_mem {fields : List (String × Json)}
    {p : String × Json} (hmem : p ∈ fields) :
    jsonArrCount p.2 ≤ jsonPairsArrCount fields := by
  induction fields with
  | nil => cases hmem
  | cons q t ih =>
    rw [List.mem_cons] at hmem
    rw [jsonPairsArrCount]
    rcases hmem with rfl | hmem
    · omega
    · have := ih hmem
      omega

theorem decodeTopicSuggestion_arrCount_pos (j : Json) (ts : TopicSuggestion)
    (h : decodeTopicSuggestion j = some ts) : 1 ≤ jsonArrCount j := by
  unfold decodeTopicSuggestion at h
  split at h
  · rename_i fields
    split at h
    · rename_i tj dj oj heq1 heq2 heq3
      obtain ⟨p, hpmem, hpv⟩ := jsonFieldLast_mem heq3
      have h1 := jsonArrCount_le_of_pair_mem hpmem
      rw [hpv] at h1
      have h2 : jsonArrCount (Json.arr oj) = 1 + jsonListArrCount oj := by
        rw [jsonArrCount]
      rw [jsonArrCount]
      omega
    · exact Option.noConfusion h
  · exact Option.noConfusion h

theorem decodeTopicList_head {j : Json} {rest : List Json}
    {ts : List TopicSuggestion}
    (h : decodeTopicList (j :: rest) = some ts) :
    ∃ t, decodeTopicSuggestion j = some t := by
  rw [decodeTopicList] at h
  split at h
  · rename_i t ts2 ht hts
    exact ⟨t, ht⟩
  · exact Option.noConfusion h

theorem realizableTopicsOk_false (ts : List TopicSuggestion) :
    ¬ realizableTopicsResult (.ok ts) := by
  rintro ⟨response, tjson, hparse, hdecode⟩
  have hnoarr := generateTopicSuggestions_no_array response tjson hparse
  have hne : tjson ≠ [] := by
    intro hnil
    rw [hnil] at hparse
    unfold generateTopicSuggestions at hparse
    split at hparse
    · split at hparse
      · split at hparse
        · rename_i elems hparse2 hpos
          simp only [Except.ok.injEq] at hparse
          rw [List.take_eq_nil_iff] at hparse
          rcases hparse with h5 | hnil2
          · exact absurd h5 (by norm_num)
          · rw [hnil2] at hpos
            simp at hpos
        · exact Except.noConfusion hparse
      · exact Except.noConfusion hparse
    · exact Except.noConfusion hparse
  obtain ⟨j0, jrest, rfl⟩ : ∃ j0 jrest, tjson = j0 :: jrest := by
    cases tjson with
    | nil => exact absurd rfl hne
    | cons a b => exact ⟨a, b, rfl⟩
  obtain ⟨t0, ht0⟩ := decodeTopicList_head hdecode
  have h1 := decodeTopicSuggestion_arrCount_pos j0 t0 ht0
  have h0 := hnoarr j0 (List.mem_cons_self j0 jrest)
  omega

theorem reachable_wizard_step_one :
    ∀ s, ReachableWizard s → s.step = 1 ∧ s.topics = [] := by
  intro s h
  induction h with
  | init c => exact ⟨rfl, rfl⟩
  | step s0 e hs he ih =>
    obtain ⟨h1, h2⟩ := ih
    unfold wizardStep
    split
    · exact ⟨h1, h2⟩
    · cases e with
      | renderAutoLoad =>
        simp only [wizardStepOpen]
        split <;> exact ⟨h1, h2⟩
      | topicsLoaded r =>
        cases r with
        | ok ts => exact absurd he (realizableTopicsOk_false ts)
        | error msg =>
          simp only [wizardStepOpen]
          split
          · exact ⟨h1, h2⟩
          · exact ⟨h1, h2⟩
      | selectTopic i =>
        simp only [wizardStepOpen]
        have hg : List.get? ([] : List TopicSuggestion) i = none := by
          cases i <;> rfl
        split
        · rw [h2, hg]
          exact ⟨h1, h2⟩
        · exact ⟨h1, h2⟩
      | customTopic input =>
        simp only [wizardStepOpen]
        split
        · rename_i hguard
          exact absurd h2 hguard.2.2.2
        · exact ⟨h1, h2⟩
      | refreshTopics =>
        simp only [wizardStepOpen]
        split
        · rename_i hguard
          exact absurd h2 hguard.2.2.2
        · exact ⟨h1, h2⟩
      | step1Next =>
        simp only [wizardStepOpen]
        split
        · rename_i hguard
          exact absurd h2 hguard.2.2.2
        · exact ⟨h1, h2⟩
      | cancel =>
        simp only [wizardStepOpen]
        split <;> exact ⟨h1, h2⟩
      | bannerRetry =>
        simp only [wizardStepOpen]
        split
        · split <;> exact ⟨h1, h2⟩
        · exact ⟨h1, h2⟩
      | outlineEdit i v =>
        simp only [wizardStepOpen]
        split <;> exact ⟨h1, h2⟩
      | outlineDelete i =>
        simp only [wizardStepOpen]
        split
        · split <;> exact ⟨h1, h2⟩
        · exact ⟨h1, h2⟩
      | outlineAdd =>
        simp only [wizardStepOpen]
        split <;> exact ⟨h1, h2⟩
      | step2Back =>
        simp only [wizardStepOpen]
        split
        · exact ⟨rfl, h2⟩
        · exact ⟨h1, h2⟩
      | step2Next =>
        simp only [wizardStepOpen]
        split
        · rename_i hguard
          exact absurd hguard.2 (by omega)
        · exact ⟨h1, h2⟩
      | step3Back =>
        simp only [wizardStepOpen]
        split
        · rename_i hguard
          exact absurd hguard.2 (by omega)
        · exact ⟨h1, h2⟩
      | selectPersona p =>
        simp only [wizardStepOpen]
        split <;> exact ⟨h1, h2⟩
      | selectLength len =>
        simp only [wizardStepOpen]
        split <;> exact ⟨h1, h2⟩
      | setCustomInstructions v =>
        simp only [wizardStepOpen]
        split <;> exact ⟨h1, h2⟩
      | step3Generate =>
        simp only [wizardStepOpen]
        split
        · rename_i hguard
          exact absurd hguard.2 (by omega)
        · exact ⟨h1, h2⟩


/-- C5 (confirmed): when article generation at step 4 fails — here, all
three provider attempts fail — the wizard does not throw outward (the
transition is total), records the aggregated failure message in lastError,
reverts step to 3 (style selection, not step 1), stops loading, and no
article note is created. -/
theorem claim_C5_generate_failure (s : WizardState)
    (stub : Nat → Except String String) (note : Option String)
    (t : TopicSuggestion) (m e1 e2 e3 : String)
    (hsel : s.selectedTopic = some t) (hmat : s.materialsContent = some m)
    (hm : m ≠ "")
    (h1 : stub 1 = .error e1) (h2 : stub 2 = .error e2)
    (h3 : stub 3 = .error e3) :
    (renderStep4Generate s stub note).1.step = 3 ∧
    (renderStep4Generate s stub note).1.lastError
      = some (exhaustedMsg (some e3)) ∧
    (renderStep4Generate s stub note).1.isLoading = false ∧
    (renderStep4Generate s stub note).2 = none := by
  obtain ⟨-, -, hr⟩ := callAI_all_fail stub e1 e2 e3 h1 h2 h3
  simp [renderStep4Generate, hsel, hmat, strTruthy, hm, hr]

/-- Witness for C5 at a concrete step-4 state and failing stub. -/
theorem claim_C5_witness :
    (renderStep4Generate c5State (fun _ => .error "provider down") none).1.step
      = 3 ∧
    (renderStep4Generate c5State (fun _ => .error "provider down") none).1.lastError
      = some (exhaustedMsg (some "provider down")) ∧
    (renderStep4Generate c5State (fun _ => .error "provider down") none).2
      = none := by
  have h := claim_C5_generate_failure c5State
    (fun _ => .error "provider down") none shortOutlineTopic oneQuoteContent
    "provider down" "provider down" "provider down"
    rfl rfl (by decide) rfl rfl rfl
  exact ⟨h.1, h.2.1, h.2.2.2⟩

/-- C6 (confirmed): at step 2 a deletion attempt with exactly 2 outline
entries is refused and the whole wizard state is unchanged; and the
wizard never advances past step 2 with fewer than 2 outline entries.  The
invariant holds because in every run whose synthesizer payloads the
program can actually produce, the lazy-regex parse (see claim C3) never
delivers a topic whose outline is an array — a parse-successful fragment
holds exactly one right bracket, so its elements contain no array at all,
and a topic without an array outline throws during rendering before any
selection control exists — hence every reachable state is still at step 1
with an empty topic list, and no state past step 2 is reachable. -/
theorem claim_C6_outline_invariant (s : WizardState) (i : Nat)
    (hlen : s.editedOutline.length = 2) :
    wizardStep s (.outlineDelete i) = s ∧
    (∀ s2 : WizardState, ReachableWizard s2 → s2.step = 1) ∧
    (∀ s2 : WizardState, ReachableWizard s2 → 2 < s2.step →
      2 ≤ s2.editedOutline.length) := by
  refine ⟨?_, ?_, ?_⟩
  · have h2 : ¬ 2 < s.editedOutline.length := by omega
    simp [wizardStep, wizardStepOpen, h2]
  · intro s2 hr
    exact (reachable_wizard_step_one s2 hr).1
  · intro s2 hr hgt
    have h1 := (reachable_wizard_step_one s2 hr).1
    omega

/-- Witness for C6 at a concrete step-2 state with a two-entry outline. -/
theorem claim_C6_witness :
    wizardStep c6WitnessState (.outlineDelete 0) = c6WitnessState :=
  (claim_C6_outline_invariant c6WitnessState 0 (by decide)).1

/-- C7 (confirmed): at step 1 with no selection, Next does nothing;
entering a custom topic whose trimmed text is empty does nothing (no state
transition and hence no synthesis call); and no event can move the wizard
off step 1 without also establishing a non-null selectedTopic. -/
theorem claim_C7_no_advance_without_topic (s : WizardState)
    (hstep : s.step = 1) (hsel : s.selectedTopic = none) :
    wizardStep s .step1Next = s ∧
    (∀ input : String, jsTrim input = "" →
      wizardStep s (.customTopic input) = s) ∧
    (∀ e : Event, (wizardStep s e).step = 1 ∨
      (wizardStep s e).selectedTopic ≠ none) := by
  refine ⟨?_, ?_, ?_⟩
  · simp [wizardStep, wizardStepOpen, hsel]
  · intro input htrim
    simp [wizardStep, wizardStepOpen, htrim]
  · intro e
    unfold wizardStep
    split
    · exact Or.inl hstep
    · cases e with
      | renderAutoLoad =>
        simp only [wizardStepOpen]
        split <;> exact Or.inl hstep
      | topicsLoaded r =>
        simp only [wizardStepOpen]
        split
        · cases r <;> exact Or.inl hstep
        · exact Or.inl hstep
      | selectTopic i =>
        simp only [wizardStepOpen]
        split
        · cases hg : s.topics.get? i <;> simp only [hg] <;> exact Or.inl hstep
        · exact Or.inl hstep
      | customTopic input =>
        simp only [wizardStepOpen]
        split
        · split
          · exact Or.inr (fun h => Option.noConfusion h)
          · exact Or.inl hstep
        · exact Or.inl hstep
      | refreshTopics =>
        simp only [wizardStepOpen]
        split <;> exact Or.inl hstep
      | step1Next =>
        simp only [wizardStepOpen, hsel]
        split <;> exact Or.inl hstep
      | cancel =>
        simp only [wizardStepOpen]
        split <;> exact Or.inl hstep
      | bannerRetry =>
        simp only [wizardStepOpen]
        split
        · split <;> exact Or.inl hstep
        · exact Or.inl hstep
      | outlineEdit i v =>
        simp only [wizardStepOpen]
        split <;> exact Or.inl hstep
      | outlineDelete i =>
        simp only [wizardStepOpen]
        split
        · split <;> exact Or.inl hstep
        · exact Or.inl hstep
      | outlineAdd =>
        simp only [wizardStepOpen]
        split <;> exact Or.inl hstep
      | step2Back =>
        simp only [wizardStepOpen]
        split
        · next h => omega
        · exact Or.inl hstep
      | step2Next =>
        simp only [wizardStepOpen, hsel]
        split <;> exact Or.inl hstep
      | step3Back =>
        simp only [wizardStepOpen]
        split
        · next h => omega
        · exact Or.inl hstep
      | selectPersona p =>
        simp only [wizardStepOpen]
        split <;> exact Or.inl hstep
      | selectLength len =>
        simp only [wizardStepOpen]
        split <;> exact Or.inl hstep
      | setCustomInstructions v =>
        simp only [wizardStepOpen]
        split <;> exact Or.inl hstep
      | step3Generate =>
        simp only [wizardStepOpen]
        split
        · next h => omega
        · exact Or.inl hstep

/-- Witness for C7 at the fresh wizard state. -/
theorem claim_C7_witness :
    wizardStep (initWizard none) .step1Next = initWizard none ∧
    wizardStep (initWizard none) (.customTopic "   ") = initWizard none := by
  have h := claim_C7_no_advance_without_topic (initWizard none) rfl rfl
  exact ⟨h.1, h.2.1 "   " (by decide)⟩

/-- C8 (confirmed): opening the wizard over materials counting fewer than
1 presents the empty state, rendering never starts a topic-synthesis
provider call, every control other than the close button is absent (all
other events leave the state unchanged), and close is the only exit. -/
theorem claim_C8_empty_state (c : Option String)
    (hc : countMaterials c < 1) :
    step1ShowsEmptyState (initWizard c) = true ∧
    renderInvokesSynthesis (initWizard c) = false ∧
    (∀ e : Event, e ≠ .cancel → wizardStep (initWizard c) e = initWizard c) ∧
    wizardStep (initWizard c) .cancel
      = { initWizard c with closed := true } := by
  have h1 : ¬ (1 ≤ countMaterials c) := by omega
  refine ⟨?_, ?_, ?_, ?_⟩
  · simp [step1ShowsEmptyState, initWizard, hc]
  · simp [renderInvokesSynthesis, initWizard, h1]
  · intro e he
    cases e with
    | renderAutoLoad =>
      simp [wizardStep, wizardStepOpen, renderInvokesSynthesis, initWizard, h1]
    | topicsLoaded r => simp [wizardStep, wizardStepOpen, initWizard]
    | selectTopic i => simp [wizardStep, wizardStepOpen, initWizard, h1]
    | customTopic input => simp [wizardStep, wizardStepOpen, initWizard, h1]
    | refreshTopics => simp [wizardStep, wizardStepOpen, initWizard, h1]
    | step1Next => simp [wizardStep, wizardStepOpen, initWizard, h1]
    | cancel => exact absurd rfl he
    | bannerRetry => simp [wizardStep, wizardStepOpen, initWizard]
    | outlineEdit i v => simp [wizardStep, wizardStepOpen, initWizard]
    | outlineDelete i => simp [wizardStep, wizardStepOpen, initWizard]
    | outlineAdd => simp [wizardStep, wizardStepOpen, initWizard]
    | step2Back => simp [wizardStep, wizardStepOpen, initWizard]
    | step2Next => simp [wizardStep, wizardStepOpen, initWizard]
    | step3Back => simp [wizardStep, wizardStepOpen, initWizard]
    | selectPersona p => simp [wizardStep, wizardStepOpen, initWizard]
    | selectLength len => simp [wizardStep, wizardStepOpen, initWizard]
    | setCustomInstructions v => simp [wizardStep, wizardStepOpen, initWizard]
    | step3Generate => simp [wizardStep, wizardStepOpen, initWizard]
  · simp [wizardStep, wizardStepOpen, initWizard]

/-- Witness for C8 at a concrete quoteless materials content. -/
theorem claim_C8_witness :
    countMaterials (some "no materials here") < 1 ∧
    renderInvokesSynthesis (initWizard (some "no materials here")) = false ∧
    wizardStep (initWizard (some "no materials here")) .step1Next
      = initWizard (some "no materials here") := by
  have hc : countMaterials (some "no materials here") < 1 := by decide
  have h := claim_C8_empty_state (some "no materials here") hc
  exact ⟨hc, h.2.1, h.2.2.1 .step1Next (fun hz => Event.noConfusion hz)⟩

/-- C9 (confirmed): the note body handed to vault.create consists, in
order, of the level-1 heading with the topic title, the info callout with
the materials backlink and the ISO date, a horizontal rule, the composed
article verbatim, another rule, and the Sources section repeating the
backlink; with a composer stub echoing the string ARTICLE: plus the
title, that exact string appears between the two rules of the fixed
wrapper. -/
theorem claim_C9_note_template (title desc : String) (outl : List String)
    (mpath isoDate : String) :
    articleNoteBody ("ARTICLE:" ++ title)
        { title := title, description := desc, outline := outl }
        mpath isoDate
      = ("# " ++ title) ++
        ("\n\n> [!info] Generated with Thinking Tool\n> Materials: [[" ++
          materialBasenameOf mpath ++ "]]\n> Generated: " ++ isoDate) ++
        "\n\n---\n\n" ++ ("ARTICLE:" ++ title) ++ "\n\n---\n\n" ++
        ("## Sources\n\n- Materials: [[" ++ materialBasenameOf mpath ++
          "]]\n") ∧
    ∃ pre post,
      articleNoteBody ("ARTICLE:" ++ title)
          { title := title, description := desc, outline := outl }
          mpath isoDate
        = pre ++ ("ARTICLE:" ++ title) ++ post := by
  have hfuse : ∀ y : String,
      ("\n\n---\n\n" : String) ++ ("## Sources\n\n- Materials: [[" ++ y)
        = "\n\n---\n\n## Sources\n\n- Materials: [[" ++ y := fun y => by
    rw [← String.append_assoc]
    exact congrArg (fun z => z ++ y) rfl
  constructor
  · simp [articleNoteBody, String.append_assoc, hfuse]
  · refine ⟨("# " ++ title) ++
      ("\n\n> [!info] Generated with Thinking Tool\n> Materials: [[" ++
        materialBasenameOf mpath ++ "]]\n> Generated: " ++ isoDate) ++
      "\n\n---\n\n",
      "\n\n---\n\n" ++
      ("## Sources\n\n- Materials: [[" ++ materialBasenameOf mpath ++
        "]]\n"), ?_⟩
    simp [articleNoteBody, String.append_assoc, hfuse]

/-- C10 (confirmed): the article note's base name is the topic title with
every character in the forbidden set replaced by a dash and truncated to
at most 50 characters; the resolved path is the candidate of the least
counter whose path is not an existing file's path (first the bare name,
then the name with an increasing numeric counter), so note creation never
targets an existing file's path. -/
theorem claim_C10_filename (existing : List String) (folder title : String) :
    (articleBaseName title).length ≤ 50 ∧
    (articleBaseName title).toList
      = (title.toList.map sanitizeFileChar).take 50 ∧
    resolveArticlePath existing folder (articleBaseName title) ∉ existing ∧
    ∃ k, resolveArticlePath existing folder (articleBaseName title)
        = articleCandidate folder (articleBaseName title) k ∧
      ∀ j, j < k →
        articleCandidate folder (articleBaseName title) j ∈ existing := by
  refine ⟨?_, rfl, ?_, ?_⟩
  · show (String.mk ((title.toList.map sanitizeFileChar).take 50)).length ≤ 50
    simp [String.length_mk, List.length_take]
  · exact Nat.find_spec
      (articleCandidate_free_exists existing folder (articleBaseName title))
  · refine ⟨Nat.find
      (articleCandidate_free_exists existing folder (articleBaseName title)),
      rfl, ?_⟩
    intro j hj
    have h := Nat.find_min
      (articleCandidate_free_exists existing folder (articleBaseName title)) hj
    exact not_not.mp h

end ThinkingTool
